import Mathlib

/-!
Shallow embedding of the process address-space manager in `src/mm/mm/src/lib.rs`
(crate `mm`): the `VmAreaStruct` / `MmStruct` data model, `MmStruct::new`,
`MmStruct::deep_dup`, `MmStruct::map_region` / `unmap_region`, and the accessors
`root_paddr` / `id` / `brk` / `set_brk`.

The crate's external collaborators are not part of the sources; they are
modelled from the spec (each such definition carries a doc comment starting
with `Modelled from the spec:`):
  * the page-table backend (`page_table::paging`): a record with a fixed
    physical root address and a per-virtual-page partial map of entries;
  * the physical-page allocator (`axalloc::global_allocator().alloc_pages`):
    a bump allocator over kernel bytes, returning fresh aligned page
    addresses, failing when exhausted;
  * `axhal::mem::virt_to_phys`: the kernel linear mapping
    (physical = virtual - constant platform offset), the offset being a
    parameter of the model.

Machine memory is a total function from byte address to byte value; the
`core::ptr::copy_nonoverlapping` page copy is an explicit function update.
The process-wide atomic counter `MM_UNIQUE_ID` and the allocator/memory are
threaded through operations as an explicit kernel state `KState`.  The Rust
`unwrap()` calls in `deep_dup` abort the call on failure; an aborted call is
modelled as the `Except.error` outcome, so `deep_dup` is a fallible function
returning `Except AxError (MmStruct × KState)`.
-/

/-- `axtype::PAGE_SIZE`. -/
def PAGE_SIZE : Nat := 4096

/-- `VM_NONE` from the source. -/
def VM_NONE : Nat := 0x00000000

/-- `VM_READ` from the source. -/
def VM_READ : Nat := 0x00000001

/-- `VM_WRITE` from the source. -/
def VM_WRITE : Nat := 0x00000002

/-- `VM_EXEC` from the source. -/
def VM_EXEC : Nat := 0x00000004

/-- `VM_SHARED` from the source. -/
def VM_SHARED : Nat := 0x00000008

/-- `VM_MAYREAD` from the source. -/
def VM_MAYREAD : Nat := 0x00000010

/-- `VM_MAYWRITE` from the source. -/
def VM_MAYWRITE : Nat := 0x00000020

/-- `VM_MAYEXEC` from the source. -/
def VM_MAYEXEC : Nat := 0x00000040

/-- `VM_MAYSHARE` from the source. -/
def VM_MAYSHARE : Nat := 0x00000080

/-- `VM_GROWSDOWN` from the source. -/
def VM_GROWSDOWN : Nat := 0x00000100

/-- `VM_LOCKED` from the source. -/
def VM_LOCKED : Nat := 0x00002000

/-- `VM_SYNC` from the source. -/
def VM_SYNC : Nat := 0x00800000

/-- Modelled from the spec: the access-flag bitset of the page-table backend
(`page_table::paging::MappingFlags`), restricted to the four bits this crate
combines: READ, WRITE, EXECUTE, USER. -/
structure MappingFlags where
  read : Bool
  write : Bool
  execute : Bool
  user : Bool
deriving DecidableEq, Repr

/-- The flag value `MappingFlags::READ | MappingFlags::WRITE |
MappingFlags::EXECUTE | MappingFlags::USER` built by `deep_dup` and
`map_region` in the source. -/
def rwxuFlags : MappingFlags :=
  { read := true, write := true, execute := true, user := true }

/-- Modelled from the spec: failure cases of the page-table backend
(misalignment, mapping an already-mapped range without overwrite, unmapping a
non-mapped range). -/
inductive PagingError where
  | NotAligned
  | AlreadyMapped
  | NotMapped
deriving DecidableEq, Repr

/-- `page_table::paging::PagingResult` specialised to unit payload. -/
abbrev PagingResult := Except PagingError Unit

/-- Errors that abort `deep_dup`: allocator exhaustion (the
`alloc_pages(..).unwrap()` in the source) or a backend mapping failure (the
`map_region(..).unwrap()` in the source). -/
inductive AxError where
  | NoMemory
  | Paging (e : PagingError)
deriving DecidableEq, Repr

/-- Modelled from the spec: the external page-table backend
(`page_table::paging::PageTable`).  `root_paddr` is the physical address of the
table root, fixed at construction; `entries` maps a virtual page address to the
installed physical page address and access flags, `none` when unmapped. -/
structure PageTable where
  root_paddr : Nat
  entries : Nat → Option (Nat × MappingFlags)

/-- Modelled from the spec: `page_table::paging::pgd_alloc()` — a new, empty
page-table root; `root` is the fresh physical root address drawn from the
kernel state. -/
def pgd_alloc (root : Nat) : PageTable :=
  { root_paddr := root, entries := fun _ => none }

/-- Modelled from the spec: the backend
`map_region(va, pa, len, flags, allow_overwrite)`.  Misaligned arguments are
rejected; without overwrite permission an already-mapped page in the range is
rejected; otherwise every page of the range is installed with the given flags
and the root is unchanged. -/
def PageTable.map_region (pt : PageTable) (va pa len : Nat)
    (flags : MappingFlags) (allow_overwrite : Bool) : PageTable × PagingResult :=
  if va % PAGE_SIZE ≠ 0 ∨ pa % PAGE_SIZE ≠ 0 ∨ len % PAGE_SIZE ≠ 0 then
    (pt, Except.error PagingError.NotAligned)
  else if allow_overwrite = false ∧
      (List.range (len / PAGE_SIZE)).any
        (fun i => (pt.entries (va + i * PAGE_SIZE)).isSome) = true then
    (pt, Except.error PagingError.AlreadyMapped)
  else
    ({ pt with
        entries := fun x =>
          if (List.range (len / PAGE_SIZE)).any (fun i => x == va + i * PAGE_SIZE) = true then
            some (pa + (x - va), flags)
          else
            pt.entries x },
      Except.ok ())

/-- Modelled from the spec: the backend `unmap_region(va, len)`; removal of a
non-mapped page in the range is a surfaced failure, the root is unchanged. -/
def PageTable.unmap_region (pt : PageTable) (va len : Nat) : PageTable × PagingResult :=
  if va % PAGE_SIZE ≠ 0 ∨ len % PAGE_SIZE ≠ 0 then
    (pt, Except.error PagingError.NotAligned)
  else if (List.range (len / PAGE_SIZE)).any
      (fun i => (pt.entries (va + i * PAGE_SIZE)).isNone) = true then
    (pt, Except.error PagingError.NotMapped)
  else
    ({ pt with
        entries := fun x =>
          if (List.range (len / PAGE_SIZE)).any (fun i => x == va + i * PAGE_SIZE) = true then
            none
          else
            pt.entries x },
      Except.ok ())

/-- Round `n` up to a multiple of `a`. -/
def alignUp (n a : Nat) : Nat :=
  if a = 0 then n else (n + a - 1) / a * a

/-- State of the physical-page allocator: a bump frontier and a capacity
limit. -/
structure AllocState where
  next : Nat
  limit : Nat
deriving DecidableEq, Repr

/-- Modelled from the spec: the physical-page allocator
`axalloc::global_allocator().alloc_pages(num_pages, align)` — allocation may
fail (exhaustion), and on success returns a fresh, aligned, previously unused
page address.  As in the source, the returned address is a kernel-virtual
address: the source dereferences it with `copy_nonoverlapping` and stores it in
the `mapped` ledger. -/
def AllocState.alloc_pages (s : AllocState) (num_pages align : Nat) :
    Option (Nat × AllocState) :=
  if alignUp s.next align + num_pages * PAGE_SIZE ≤ s.limit then
    some (alignUp s.next align,
      { next := alignUp s.next align + num_pages * PAGE_SIZE, limit := s.limit })
  else
    none

/-- Modelled from the spec: `axhal::mem::virt_to_phys`, the kernel linear
mapping — physical address = kernel-virtual address minus the constant
platform offset `offset`. -/
def virt_to_phys (offset va : Nat) : Nat := va - offset

/-- `core::ptr::copy_nonoverlapping(src, dst, count)` on byte memory: the
result reads the copied bytes inside `[dst, dst + count)` and is unchanged
elsewhere. -/
def copy_nonoverlapping (mem : Nat → Nat) (src dst count : Nat) : Nat → Nat :=
  fun x => if dst ≤ x ∧ x < dst + count then mem (src + (x - dst)) else mem x

/-- `VmAreaStruct` from the source.  `vm_file` models the
`OnceCell<Arc<Mutex<File>>>` reference by the identity of the shared file
object (`none` when absent); cloning a VMA clones the `Arc`, so the identity
is preserved and both clones refer to the same underlying file object. -/
structure VmAreaStruct where
  vm_start : Nat
  vm_end : Nat
  vm_pgoff : Nat
  vm_file : Option Nat
  vm_flags : Nat
deriving DecidableEq, Repr

/-- `VmAreaStruct::new` from the source: stores the fields verbatim. -/
def VmAreaStruct.new (vm_start vm_end vm_pgoff : Nat) (vm_file : Option Nat)
    (vm_flags : Nat) : VmAreaStruct :=
  { vm_start := vm_start, vm_end := vm_end, vm_pgoff := vm_pgoff,
    vm_file := vm_file, vm_flags := vm_flags }

/-- The ambient kernel state threaded through `MmStruct` operations: the
process-wide `MM_UNIQUE_ID` counter, a supply of fresh page-table roots for
`pgd_alloc`, the allocator state, and byte memory. -/
structure KState where
  mmId : Nat
  rootNext : Nat
  alloc : AllocState
  mem : Nat → Nat

/-- `MmStruct` from the source.  `vmas` is the `BTreeMap<usize, VmAreaStruct>`
as an association list in key order; `mapped` is the
`BTreeMap<usize, usize>` ledger of (virtual page, backing page) pairs in key
order; `pgd` is the `Arc<SpinNoIrq<PageTable>>`, modelled by value with the
lock elided (operations are synchronous and the lock is never held across a
copy or an allocator call). -/
structure MmStruct where
  id : Nat
  vmas : List (Nat × VmAreaStruct)
  pgd : PageTable
  brk : Nat
  mapped : List (Nat × Nat)
  locked_vm : Nat

/-- `MmStruct::new()` from the source: fresh id from the counter, empty VMA
map, fresh empty page table, `brk = 0`, empty ledger, `locked_vm = 0`. -/
def MmStruct.new (st : KState) : MmStruct × KState :=
  ({ id := st.mmId, vmas := [], pgd := pgd_alloc st.rootNext, brk := 0,
     mapped := [], locked_vm := 0 },
   { st with mmId := st.mmId + 1, rootNext := st.rootNext + 1 })

/-- State of the per-ledger-entry loop of `deep_dup`: current memory,
allocator state, the new page table being filled, and the new ledger built so
far. -/
structure DupState where
  mem : Nat → Nat
  alloc : AllocState
  pgd : PageTable
  out : List (Nat × Nat)

/-- The `for (va, dva) in &self.mapped` loop of `MmStruct::deep_dup`: for each
ledger entry allocate one page (`unwrap` on failure → `AxError.NoMemory`),
copy `PAGE_SIZE` bytes from the old page, install the mapping of `va` to
`virt_to_phys` of the new page with full READ|WRITE|EXECUTE|USER flags and
overwrite allowed (`unwrap` on failure → `AxError.Paging`), and record
`(va, new_page)` in the new ledger. -/
def dupPages (offset : Nat) : List (Nat × Nat) → DupState → Except AxError DupState
  | [], s => Except.ok s
  | (va, old_page) :: rest, s =>
    match AllocState.alloc_pages s.alloc 1 PAGE_SIZE with
    | none => Except.error AxError.NoMemory
    | some (new_page, alloc1) =>
      match PageTable.map_region s.pgd va (virt_to_phys offset new_page)
          PAGE_SIZE rwxuFlags true with
      | (_, Except.error e) => Except.error (AxError.Paging e)
      | (pgd1, Except.ok _) =>
        dupPages offset rest
          ⟨copy_nonoverlapping s.mem old_page new_page PAGE_SIZE, alloc1, pgd1,
           s.out ++ [(va, new_page)]⟩

/-- `MmStruct::deep_dup()` from the source: allocate a fresh root, rebuild the
VMA map keyed by each VMA's `vm_start` (cloning shares any file reference),
run the ledger-copy loop, copy `brk` and `locked_vm` verbatim, and draw a
fresh id.  `offset` is the platform constant of `virt_to_phys`. -/
def MmStruct.deep_dup (mm : MmStruct) (offset : Nat) (st : KState) :
    Except AxError (MmStruct × KState) :=
  match dupPages offset mm.mapped ⟨st.mem, st.alloc, pgd_alloc st.rootNext, []⟩ with
  | Except.error e => Except.error e
  | Except.ok s =>
      Except.ok
        ({ id := st.mmId,
           vmas := mm.vmas.map (fun kv => (kv.2.vm_start, kv.2)),
           pgd := s.pgd, brk := mm.brk, mapped := s.out,
           locked_vm := mm.locked_vm },
         { mmId := st.mmId + 1, rootNext := st.rootNext + 1,
           alloc := s.alloc, mem := s.mem })

/-- `MmStruct::root_paddr()` from the source: the physical root of the page
table. -/
def MmStruct.root_paddr (mm : MmStruct) : Nat := mm.pgd.root_paddr

/-- `MmStruct::set_brk()` from the source. -/
def MmStruct.set_brk (mm : MmStruct) (b : Nat) : MmStruct := { mm with brk := b }

/-- `MmStruct::map_region()` from the source: ignores the caller's `_uflags`,
always delegates to the backend with READ|WRITE|EXECUTE|USER and overwrite
allowed, returns the backend's result unchanged, and touches no other
field. -/
def MmStruct.map_region (mm : MmStruct) (va pa len _uflags : Nat) :
    MmStruct × PagingResult :=
  ({ mm with pgd := (PageTable.map_region mm.pgd va pa len rwxuFlags true).1 },
   (PageTable.map_region mm.pgd va pa len rwxuFlags true).2)

/-- `MmStruct::unmap_region()` from the source: delegates to the backend and
returns its result unchanged. -/
def MmStruct.unmap_region (mm : MmStruct) (va len : Nat) :
    MmStruct × PagingResult :=
  ({ mm with pgd := (PageTable.unmap_region mm.pgd va len).1 },
   (PageTable.unmap_region mm.pgd va len).2)

/-- A construction call: `MmStruct::new()` or `somemm.deep_dup()` (the source
struct and the `virt_to_phys` offset are caller-supplied). -/
inductive MmOp where
  | newOp : MmOp
  | dupOp : MmStruct → Nat → MmOp

/-- Run a sequence of construction calls against the kernel state, collecting
the ids of the resulting structures in call order.  A failing `deep_dup`
aborts (the Rust call would never return), so the sequence stops there. -/
def runOps : List MmOp → KState → List Nat × KState
  | [], st => ([], st)
  | MmOp.newOp :: rest, st =>
      ((MmStruct.new st).1.id :: (runOps rest (MmStruct.new st).2).1,
       (runOps rest (MmStruct.new st).2).2)
  | MmOp.dupOp mm off :: rest, st =>
      match MmStruct.deep_dup mm off st with
      | Except.error _ => ([], st)
      | Except.ok (mm1, st1) =>
          (mm1.id :: (runOps rest st1).1, (runOps rest st1).2)

/-- An operation on one address space, for stating invariants over arbitrary
call sequences. -/
inductive SpaceOp where
  | mapOp (va pa len uflags : Nat)
  | unmapOp (va len : Nat)
  | brkOp (b : Nat)
  | dupOp (offset : Nat)

/-- Apply one operation to an `MmStruct` and the kernel state; `deep_dup`
borrows the source immutably, so the source struct is returned unchanged. -/
def applyOp (p : MmStruct × KState) (op : SpaceOp) : MmStruct × KState :=
  match op with
  | SpaceOp.mapOp va pa len uf => ((p.1.map_region va pa len uf).1, p.2)
  | SpaceOp.unmapOp va len => ((p.1.unmap_region va len).1, p.2)
  | SpaceOp.brkOp b => (p.1.set_brk b, p.2)
  | SpaceOp.dupOp off =>
      match p.1.deep_dup off p.2 with
      | Except.error _ => p
      | Except.ok (_, st1) => (p.1, st1)

/-- Apply a sequence of operations. -/
def applyOps (p : MmStruct × KState) (ops : List SpaceOp) : MmStruct × KState :=
  ops.foldl applyOp p

/-- A concrete populated address space used to evaluate the theorems: one
file-backed VMA and two materialized pages. -/
def exMm : MmStruct :=
  { id := 42,
    vmas := [(4096, VmAreaStruct.new 4096 16384 0 (some 7) (VM_READ + VM_WRITE))],
    pgd := pgd_alloc 3, brk := 16384,
    mapped := [(4096, 8192), (8192, 12288)], locked_vm := 1 }

/-- A concrete kernel state whose allocator frontier lies above both source
pages of `exMm` and with room for the duplication. -/
def exSt : KState :=
  { mmId := 5, rootNext := 9, alloc := { next := 16384, limit := 65536 },
    mem := fun x => x % 251 }

/-- A kernel state with an exhausted allocator. -/
def exhaustedSt : KState :=
  { mmId := 1, rootNext := 0, alloc := { next := 0, limit := 0 },
    mem := fun _ => 0 }

/-- A kernel state whose allocator has room for exactly one more page above
the frontier: duplicating the two-page `exMm` from here serves the first page
request and fails on the second (mid-duplication exhaustion). -/
def midSt : KState :=
  { mmId := 5, rootNext := 9, alloc := { next := 16384, limit := 20480 },
    mem := fun x => x % 251 }

/-- An empty address space value (duplicating it allocates nothing). -/
def exEmptyMm : MmStruct :=
  { id := 0, vmas := [], pgd := pgd_alloc 0, brk := 0, mapped := [],
    locked_vm := 0 }

/-- A construction sequence exercising both `new` and `deep_dup`. -/
def exOps : List MmOp :=
  [MmOp.newOp, MmOp.dupOp exEmptyMm 0, MmOp.newOp]

/-- Projection used by the C2 counterexample: on success, the new ledger and
the page-table entry installed at virtual address 4096. -/
def dupLedgerAndEntry (e : Except AxError (MmStruct × KState)) :
    Option (List (Nat × Nat) × Option (Nat × MappingFlags)) :=
  match e with
  | Except.ok r => some (r.1.mapped, r.1.pgd.entries 4096)
  | Except.error _ => none

/-- Rounding up to a page multiple does not decrease an address. -/
theorem le_alignUp_page (n : Nat) : n ≤ alignUp n PAGE_SIZE := by
  unfold alignUp PAGE_SIZE
  rw [if_neg (by decide)]
  omega

/-- Rounding up to a page multiple produces a page-aligned address. -/
theorem alignUp_page_mod (n : Nat) : alignUp n PAGE_SIZE % PAGE_SIZE = 0 := by
  unfold alignUp PAGE_SIZE
  rw [if_neg (by decide)]
  omega

/-- A successful one-page allocation returns the aligned frontier, advances
the frontier past the page and keeps the limit. -/
theorem alloc_pages_some {s : AllocState} {npg : Nat} {a1 : AllocState}
    (h : AllocState.alloc_pages s 1 PAGE_SIZE = some (npg, a1)) :
    s.next ≤ npg ∧ npg % PAGE_SIZE = 0 ∧ a1.next = npg + PAGE_SIZE ∧
      a1.limit = s.limit := by
  unfold AllocState.alloc_pages at h
  split at h
  · rw [Option.some.injEq, Prod.mk.injEq] at h
    obtain ⟨h1, h2⟩ := h
    subst h1
    subst h2
    refine ⟨le_alignUp_page s.next, alignUp_page_mod s.next, by simp, rfl⟩
  · exact absurd h (by simp)

/-- Bytes inside the destination window of a copy read from the source. -/
theorem copy_inside {mem : Nat → Nat} {src dst count x : Nat}
    (h1 : dst ≤ x) (h2 : x < dst + count) :
    copy_nonoverlapping mem src dst count x = mem (src + (x - dst)) := by
  unfold copy_nonoverlapping
  rw [if_pos ⟨h1, h2⟩]

/-- Bytes outside the destination window of a copy are unchanged. -/
theorem copy_outside {mem : Nat → Nat} {src dst count x : Nat}
    (h : x < dst ∨ dst + count ≤ x) :
    copy_nonoverlapping mem src dst count x = mem x := by
  unfold copy_nonoverlapping
  rw [if_neg (by omega)]

/-- The backend `map_region` never changes the table root. -/
theorem map_region_root (pt : PageTable) (va pa len : Nat) (fl : MappingFlags)
    (ow : Bool) :
    (PageTable.map_region pt va pa len fl ow).1.root_paddr = pt.root_paddr := by
  unfold PageTable.map_region
  split
  · rfl
  · split
    · rfl
    · rfl

/-- The backend `unmap_region` never changes the table root. -/
theorem unmap_region_root (pt : PageTable) (va len : Nat) :
    (PageTable.unmap_region pt va len).1.root_paddr = pt.root_paddr := by
  unfold PageTable.unmap_region
  split
  · rfl
  · split
    · rfl
    · rfl

/-- A successful one-page `map_region` installs exactly `(pa, flags)` at `va`,
changes no other entry, and keeps the root. -/
theorem map_region_page_ok {pt pt' : PageTable} {va pa : Nat}
    {fl : MappingFlags} {ow : Bool} {u : Unit}
    (h : PageTable.map_region pt va pa PAGE_SIZE fl ow = (pt', Except.ok u)) :
    pt'.root_paddr = pt.root_paddr ∧
    pt'.entries va = some (pa, fl) ∧
    (∀ x, x ≠ va → pt'.entries x = pt.entries x) := by
  have hps : PAGE_SIZE / PAGE_SIZE = 1 := by decide
  have hr1 : List.range 1 = [0] := by decide
  unfold PageTable.map_region at h
  split at h
  · exact absurd h (by simp)
  · split at h
    · exact absurd h (by simp)
    · rw [Prod.mk.injEq] at h
      obtain ⟨h1, -⟩ := h
      subst h1
      refine ⟨rfl, ?_, ?_⟩
      · simp only [hps, hr1, List.any_cons, List.any_nil,
          Bool.or_false, Nat.zero_mul, Nat.add_zero, beq_iff_eq]
        simp
      · intro x hx
        simp only [hps, hr1, List.any_cons, List.any_nil,
          Bool.or_false, Nat.zero_mul, Nat.add_zero, beq_iff_eq]
        rw [if_neg hx]

/-- Frame property of the ledger-copy loop: the allocation frontier only
grows, and on success no byte below the initial frontier is written (every
copy targets a freshly allocated page). -/
theorem dupPages_frame (offset : Nat) :
    ∀ (entries : List (Nat × Nat)) (s s' : DupState),
      dupPages offset entries s = Except.ok s' →
      s.alloc.next ≤ s'.alloc.next ∧
      (∀ x, x < s.alloc.next → s'.mem x = s.mem x) := by
  intro entries
  induction entries with
  | nil =>
    intro s s' h
    have hs : s = s' := by simpa [dupPages] using h
    subst hs
    exact ⟨Nat.le_refl _, fun x _ => rfl⟩
  | cons hd rest ih =>
    obtain ⟨va, old⟩ := hd
    intro s s' h
    simp only [dupPages] at h
    split at h
    · exact absurd h (by simp)
    · rename_i np a1 heq
      split at h
      · exact absurd h (by simp)
      · rename_i pgd1 u heq2
        obtain ⟨hn1, hm1, ha1, -⟩ := alloc_pages_some heq
        obtain ⟨ih1, ih2⟩ := ih _ _ h
        have Hn : a1.next ≤ s'.alloc.next := ih1
        have Hm : ∀ x, x < a1.next →
            s'.mem x = copy_nonoverlapping s.mem old np PAGE_SIZE x := ih2
        refine ⟨by omega, ?_⟩
        intro x hx
        rw [Hm x (by omega), copy_outside (Or.inl (by omega))]

/-- Full specification of a successful ledger-copy loop run: the new ledger
extends the accumulator by one entry per source entry in order (same keys);
the frontier only grows; bytes below the initial frontier are untouched; the
new table root is untouched; entries of the new table at addresses outside the
processed keys are untouched; and every processed entry `(va, old)` gets a
fresh page `npg` at or above the initial frontier, recorded as `(va, npg)` in
the new ledger, installed in the new table at `va` as
`(virt_to_phys offset npg, rwxuFlags)`, with the page's bytes equal to the old
page's initial bytes whenever the old page lay below the initial frontier. -/
theorem dupPages_spec (offset : Nat) :
    ∀ (entries : List (Nat × Nat)) (s s' : DupState),
      dupPages offset entries s = Except.ok s' →
      (entries.map Prod.fst).Nodup →
      (∃ t, s'.out = s.out ++ t) ∧
      s'.out.map Prod.fst = s.out.map Prod.fst ++ entries.map Prod.fst ∧
      s.alloc.next ≤ s'.alloc.next ∧
      (∀ x, x < s.alloc.next → s'.mem x = s.mem x) ∧
      s'.pgd.root_paddr = s.pgd.root_paddr ∧
      (∀ x, x ∉ entries.map Prod.fst → s'.pgd.entries x = s.pgd.entries x) ∧
      (∀ p ∈ entries, ∃ npg,
        s.alloc.next ≤ npg ∧ npg + PAGE_SIZE ≤ s'.alloc.next ∧
        (p.1, npg) ∈ s'.out ∧
        s'.pgd.entries p.1 = some (virt_to_phys offset npg, rwxuFlags) ∧
        (p.2 + PAGE_SIZE ≤ s.alloc.next →
          ∀ j, j < PAGE_SIZE → s'.mem (npg + j) = s.mem (p.2 + j))) := by
  intro entries
  induction entries with
  | nil =>
    intro s s' h _
    have hs : s = s' := by simpa [dupPages] using h
    subst hs
    exact ⟨⟨[], by simp⟩, by simp, Nat.le_refl _, fun x _ => rfl, rfl,
      fun x _ => rfl, by simp⟩
  | cons hd rest ih =>
    obtain ⟨va, old⟩ := hd
    intro s s' h hnd
    rw [List.map_cons, List.nodup_cons] at hnd
    obtain ⟨hva, hnd⟩ := hnd
    simp only [dupPages] at h
    split at h
    · exact absurd h (by simp)
    · rename_i np a1 heq
      split at h
      · exact absurd h (by simp)
      · rename_i pgd1 u heq2
        obtain ⟨hn1, hm1, ha1, -⟩ := alloc_pages_some heq
        obtain ⟨hroot1, hentry1, hframe1⟩ := map_region_page_ok heq2
        obtain ⟨⟨t, hout⟩, hkeys, hnext, hmem, hroot, hframe, hent⟩ :=
          ih _ _ h hnd
        have hps : 0 < PAGE_SIZE := by decide
        have Hout : s'.out = (s.out ++ [(va, np)]) ++ t := hout
        have Hkeys : s'.out.map Prod.fst =
            (s.out ++ [(va, np)]).map Prod.fst ++ rest.map Prod.fst := hkeys
        have Hnext : a1.next ≤ s'.alloc.next := hnext
        have Hmem : ∀ x, x < a1.next →
            s'.mem x = copy_nonoverlapping s.mem old np PAGE_SIZE x := hmem
        have Hroot : s'.pgd.root_paddr = pgd1.root_paddr := hroot
        have Hframe : ∀ x, x ∉ rest.map Prod.fst →
            s'.pgd.entries x = pgd1.entries x := hframe
        have Hent : ∀ p ∈ rest, ∃ npg,
            a1.next ≤ npg ∧ npg + PAGE_SIZE ≤ s'.alloc.next ∧
            (p.1, npg) ∈ s'.out ∧
            s'.pgd.entries p.1 = some (virt_to_phys offset npg, rwxuFlags) ∧
            (p.2 + PAGE_SIZE ≤ a1.next → ∀ j, j < PAGE_SIZE →
              s'.mem (npg + j) =
                copy_nonoverlapping s.mem old np PAGE_SIZE (p.2 + j)) := hent
        refine ⟨⟨(va, np) :: t, by rw [Hout]; simp⟩, ?_, by omega, ?_, ?_, ?_, ?_⟩
        · rw [Hkeys]
          simp
        · intro x hx
          rw [Hmem x (by omega), copy_outside (Or.inl (by omega))]
        · exact Hroot.trans hroot1
        · intro x hx
          rw [List.map_cons, List.mem_cons] at hx
          push_neg at hx
          rw [Hframe x hx.2, hframe1 x hx.1]
        · intro p hp
          rcases List.mem_cons.1 hp with hp1 | hp2
          · subst hp1
            refine ⟨np, hn1, by omega, ?_, ?_, ?_⟩
            · rw [Hout]
              simp
            · rw [Hframe va hva, hentry1]
            · intro hle j hj
              rw [Hmem (np + j) (by omega),
                copy_inside (Nat.le_add_right np j) (by omega)]
              have hjj : np + j - np = j := by omega
              rw [hjj]
          · obtain ⟨npg, k1, k2, k3, k4, k5⟩ := Hent p hp2
            refine ⟨npg, by omega, k2, k3, k4, ?_⟩
            intro hle j hj
            rw [k5 (by omega) j hj, copy_outside (Or.inl (by omega))]

/-- Destructuring a successful `deep_dup`: the result is built from the final
loop state, with fresh id, rebuilt VMA map, copied `brk` and `locked_vm`, the
bumped counter, and the loop's allocator and memory. -/
theorem deep_dup_ok_elim {mm : MmStruct} {offset : Nat} {st : KState}
    {mm' : MmStruct} {st' : KState}
    (h : MmStruct.deep_dup mm offset st = Except.ok (mm', st')) :
    ∃ s, dupPages offset mm.mapped
        ⟨st.mem, st.alloc, pgd_alloc st.rootNext, []⟩ = Except.ok s ∧
      mm' = { id := st.mmId,
              vmas := mm.vmas.map (fun kv => (kv.2.vm_start, kv.2)),
              pgd := s.pgd, brk := mm.brk, mapped := s.out,
              locked_vm := mm.locked_vm } ∧
      st' = { mmId := st.mmId + 1, rootNext := st.rootNext + 1,
              alloc := s.alloc, mem := s.mem } := by
  unfold MmStruct.deep_dup at h
  split at h
  · exact absurd h (by simp)
  · rename_i s heq
    rw [Except.ok.injEq, Prod.mk.injEq] at h
    exact ⟨s, heq, h.1.symm, h.2.symm⟩

/-- Claim C1: for every `MmStruct` whose `mapped` ledger holds N entries with
arbitrary page contents, a (successful) `deep_dup()` returns an `MmStruct`
whose ledger holds exactly N entries at the same virtual-address keys, each
entry backed by a newly allocated page (at or above the pre-call allocation
frontier, hence distinct from the source entry's backing address) whose
`PAGE_SIZE` bytes are byte-identical to the corresponding source page.  The
hypotheses state the data-structure invariants of the source: ledger keys are
`BTreeMap` keys (no duplicates) and every source backing page was previously
allocated (lies below the allocator frontier). -/
theorem deep_dup_content_equiv (mm : MmStruct) (offset : Nat) (st : KState)
    (mm' : MmStruct) (st' : KState)
    (hok : MmStruct.deep_dup mm offset st = Except.ok (mm', st'))
    (hnd : (mm.mapped.map Prod.fst).Nodup)
    (hsrc : ∀ p ∈ mm.mapped, p.2 + PAGE_SIZE ≤ st.alloc.next) :
    mm'.mapped.map Prod.fst = mm.mapped.map Prod.fst ∧
    (∀ p ∈ mm.mapped, ∃ npg,
      (p.1, npg) ∈ mm'.mapped ∧ npg ≠ p.2 ∧ st.alloc.next ≤ npg ∧
      (∀ j, j < PAGE_SIZE → st'.mem (npg + j) = st.mem (p.2 + j))) := by
  obtain ⟨s, hdp, hmm, hst⟩ := deep_dup_ok_elim hok
  obtain ⟨-, hkeys, -, -, -, -, hent⟩ :=
    dupPages_spec offset mm.mapped _ s hdp hnd
  have Hkeys : s.out.map Prod.fst =
      ([] : List (Nat × Nat)).map Prod.fst ++ mm.mapped.map Prod.fst := hkeys
  have Hent : ∀ p ∈ mm.mapped, ∃ npg,
      st.alloc.next ≤ npg ∧ npg + PAGE_SIZE ≤ s.alloc.next ∧
      (p.1, npg) ∈ s.out ∧
      s.pgd.entries p.1 = some (virt_to_phys offset npg, rwxuFlags) ∧
      (p.2 + PAGE_SIZE ≤ st.alloc.next →
        ∀ j, j < PAGE_SIZE → s.mem (npg + j) = st.mem (p.2 + j)) := hent
  subst hmm
  subst hst
  constructor
  · simpa using Hkeys
  · intro p hp
    obtain ⟨npg, k1, k2, k3, k4, k5⟩ := Hent p hp
    have hps : 0 < PAGE_SIZE := by decide
    have hs := hsrc p hp
    exact ⟨npg, k3, by omega, k1, fun j hj => k5 hs j hj⟩

/-- Witness for C1: evaluating `deep_dup` on the concrete two-page space
`exMm` and discharging the hypotheses there; the duplicate's ledger keys equal
the source's ledger keys. -/
theorem deep_dup_content_equiv_witness :
    ∃ mmC stC, MmStruct.deep_dup exMm 0 exSt = Except.ok (mmC, stC) ∧
      mmC.mapped.map Prod.fst = exMm.mapped.map Prod.fst := by
  obtain ⟨r, hr⟩ : ∃ r, MmStruct.deep_dup exMm 0 exSt = Except.ok r := ⟨_, rfl⟩
  exact ⟨r.1, r.2, hr,
    (deep_dup_content_equiv exMm 0 exSt r.1 r.2 hr (by decide) (by decide)).1⟩

/-- Counterexample to claim C2 (the ledger value equals the physical address
installed in the new page table): duplicating `exMm` under a `virt_to_phys`
linear offset of 4096, the entry for virtual address 4096 stores the
allocator-returned kernel-virtual page 16384 in the ledger while the page
table is installed with the physical address 12288 = 16384 - 4096; the two
differ.  (The ledger records `new_page`; the table receives
`virt_to_phys(new_page)`.) -/
theorem deep_dup_ledger_value_counterexample :
    dupLedgerAndEntry (MmStruct.deep_dup exMm 4096 exSt) =
      some ([(4096, 16384), (8192, 20480)], some (12288, rwxuFlags)) ∧
    (16384 : Nat) ≠ 12288 := by
  constructor
  · rfl
  · decide

/-- Claim C2 as amended: for every entry recorded by `deep_dup()` in the new
ledger, the value stored under the virtual-address key is the
allocator-returned (kernel-virtual) address of the new backing page, and the
physical address installed in the new page table at that virtual address is
`virt_to_phys` of that stored value (they coincide only when the linear
offset is zero). -/
theorem deep_dup_ledger_records_alloc_page (mm : MmStruct) (offset : Nat)
    (st : KState) (mm' : MmStruct) (st' : KState)
    (hok : MmStruct.deep_dup mm offset st = Except.ok (mm', st'))
    (hnd : (mm.mapped.map Prod.fst).Nodup) :
    ∀ p ∈ mm.mapped, ∃ npg,
      (p.1, npg) ∈ mm'.mapped ∧
      mm'.pgd.entries p.1 = some (virt_to_phys offset npg, rwxuFlags) := by
  obtain ⟨s, hdp, hmm, hst⟩ := deep_dup_ok_elim hok
  obtain ⟨-, -, -, -, -, -, hent⟩ :=
    dupPages_spec offset mm.mapped _ s hdp hnd
  have Hent : ∀ p ∈ mm.mapped, ∃ npg,
      st.alloc.next ≤ npg ∧ npg + PAGE_SIZE ≤ s.alloc.next ∧
      (p.1, npg) ∈ s.out ∧
      s.pgd.entries p.1 = some (virt_to_phys offset npg, rwxuFlags) ∧
      (p.2 + PAGE_SIZE ≤ st.alloc.next →
        ∀ j, j < PAGE_SIZE → s.mem (npg + j) = st.mem (p.2 + j)) := hent
  subst hmm
  intro p hp
  obtain ⟨npg, -, -, k3, k4, -⟩ := Hent p hp
  exact ⟨npg, k3, k4⟩

/-- Witness for the amended C2 at the concrete input with linear offset
4096. -/
theorem deep_dup_ledger_records_alloc_page_witness :
    ∃ mmC stC npg, MmStruct.deep_dup exMm 4096 exSt = Except.ok (mmC, stC) ∧
      (4096, npg) ∈ mmC.mapped ∧
      mmC.pgd.entries 4096 = some (virt_to_phys 4096 npg, rwxuFlags) := by
  obtain ⟨r, hr⟩ : ∃ r, MmStruct.deep_dup exMm 4096 exSt = Except.ok r :=
    ⟨_, rfl⟩
  obtain ⟨npg, h1, h2⟩ :=
    deep_dup_ledger_records_alloc_page exMm 4096 exSt r.1 r.2 hr (by decide)
      (4096, 8192) (by decide)
  exact ⟨r.1, r.2, npg, hr, h1, h2⟩

/-- Claim C3: for every source-ledger entry processed by `deep_dup()`, the
mapping installed in the new page table at that entry's virtual address
carries exactly the flags READ | WRITE | EXECUTE | USER, whatever the
`vm_flags` of the covering VMAs are (they are not consulted at all). -/
theorem deep_dup_flags_rwxu (mm : MmStruct) (offset : Nat) (st : KState)
    (mm' : MmStruct) (st' : KState)
    (hok : MmStruct.deep_dup mm offset st = Except.ok (mm', st'))
    (hnd : (mm.mapped.map Prod.fst).Nodup) :
    ∀ p ∈ mm.mapped, ∃ pa, mm'.pgd.entries p.1 = some (pa, rwxuFlags) := by
  obtain ⟨s, hdp, hmm, hst⟩ := deep_dup_ok_elim hok
  obtain ⟨-, -, -, -, -, -, hent⟩ :=
    dupPages_spec offset mm.mapped _ s hdp hnd
  have Hent : ∀ p ∈ mm.mapped, ∃ npg,
      st.alloc.next ≤ npg ∧ npg + PAGE_SIZE ≤ s.alloc.next ∧
      (p.1, npg) ∈ s.out ∧
      s.pgd.entries p.1 = some (virt_to_phys offset npg, rwxuFlags) ∧
      (p.2 + PAGE_SIZE ≤ st.alloc.next →
        ∀ j, j < PAGE_SIZE → s.mem (npg + j) = st.mem (p.2 + j)) := hent
  subst hmm
  intro p hp
  obtain ⟨npg, -, -, -, k4, -⟩ := Hent p hp
  exact ⟨virt_to_phys offset npg, k4⟩

/-- Witness for C3: in the concrete duplication of `exMm`, the entry installed
at virtual address 4096 carries exactly READ|WRITE|EXECUTE|USER. -/
theorem deep_dup_flags_rwxu_witness :
    ∃ mmC stC pa, MmStruct.deep_dup exMm 0 exSt = Except.ok (mmC, stC) ∧
      mmC.pgd.entries 4096 = some (pa, rwxuFlags) := by
  obtain ⟨r, hr⟩ : ∃ r, MmStruct.deep_dup exMm 0 exSt = Except.ok r := ⟨_, rfl⟩
  obtain ⟨pa, hpa⟩ :=
    deep_dup_flags_rwxu exMm 0 exSt r.1 r.2 hr (by decide) (4096, 8192)
      (by decide)
  exact ⟨r.1, r.2, pa, hr, hpa⟩

/-- Claim C4: `map_region(va, pa, len, uflags)` ignores `uflags` (any two
intents give the same outcome), invokes the backend with exactly
READ|WRITE|EXECUTE|USER and `allow_overwrite = true`, returns the backend's
result unchanged, installs the backend's updated table, and leaves `vmas`,
`mapped`, `brk`, `locked_vm` (and the id) unmodified. -/
theorem map_region_delegates (mm : MmStruct) (va pa len uflags uflags' : Nat) :
    (MmStruct.map_region mm va pa len uflags).2 =
      (PageTable.map_region mm.pgd va pa len rwxuFlags true).2 ∧
    (MmStruct.map_region mm va pa len uflags).1.pgd =
      (PageTable.map_region mm.pgd va pa len rwxuFlags true).1 ∧
    MmStruct.map_region mm va pa len uflags =
      MmStruct.map_region mm va pa len uflags' ∧
    (MmStruct.map_region mm va pa len uflags).1.vmas = mm.vmas ∧
    (MmStruct.map_region mm va pa len uflags).1.mapped = mm.mapped ∧
    (MmStruct.map_region mm va pa len uflags).1.brk = mm.brk ∧
    (MmStruct.map_region mm va pa len uflags).1.locked_vm = mm.locked_vm ∧
    (MmStruct.map_region mm va pa len uflags).1.id = mm.id :=
  ⟨rfl, rfl, rfl, rfl, rfl, rfl, rfl, rfl⟩

/-- Claim C5: a successful `deep_dup()` yields a `vmas` map with exactly the
same start-address keys and entries as the source — each VMA's `vm_start`,
`vm_end`, `vm_pgoff`, `vm_flags` and shared `vm_file` identity are equal —
and `brk` and `locked_vm` are copied verbatim.  The hypothesis is the
`BTreeMap` invariant maintained by the crate's callers: each VMA is keyed by
its `vm_start`. -/
theorem deep_dup_vmas_preserved (mm : MmStruct) (offset : Nat) (st : KState)
    (mm' : MmStruct) (st' : KState)
    (hok : MmStruct.deep_dup mm offset st = Except.ok (mm', st'))
    (hkeys : ∀ p ∈ mm.vmas, p.1 = p.2.vm_start) :
    mm'.vmas = mm.vmas ∧ mm'.brk = mm.brk ∧ mm'.locked_vm = mm.locked_vm := by
  obtain ⟨s, hdp, hmm, hst⟩ := deep_dup_ok_elim hok
  subst hmm
  refine ⟨?_, rfl, rfl⟩
  show mm.vmas.map (fun kv => (kv.2.vm_start, kv.2)) = mm.vmas
  have hself : ∀ p ∈ mm.vmas,
      (fun kv : Nat × VmAreaStruct => (kv.2.vm_start, kv.2)) p = p := by
    intro p hp
    obtain ⟨k, v⟩ := p
    have hk : k = v.vm_start := hkeys (k, v) hp
    simp only
    rw [hk]
  rw [List.map_congr_left hself]
  simp

/-- Witness for C5: the concrete duplication of `exMm` (which has one
file-backed VMA) reproduces the VMA map, `brk` and `locked_vm` verbatim. -/
theorem deep_dup_vmas_preserved_witness :
    ∃ mmC stC, MmStruct.deep_dup exMm 0 exSt = Except.ok (mmC, stC) ∧
      mmC.vmas = exMm.vmas ∧ mmC.brk = exMm.brk ∧
      mmC.locked_vm = exMm.locked_vm := by
  obtain ⟨r, hr⟩ : ∃ r, MmStruct.deep_dup exMm 0 exSt = Except.ok r := ⟨_, rfl⟩
  obtain ⟨h1, h2, h3⟩ :=
    deep_dup_vmas_preserved exMm 0 exSt r.1 r.2 hr (by decide)
  exact ⟨r.1, r.2, hr, h1, h2, h3⟩

/-- The id drawn by a successful `deep_dup` is the counter value at the call,
and the counter is bumped by one. -/
theorem deep_dup_ok_id {mm : MmStruct} {offset : Nat} {st : KState}
    {mm' : MmStruct} {st' : KState}
    (h : MmStruct.deep_dup mm offset st = Except.ok (mm', st')) :
    mm'.id = st.mmId ∧ st'.mmId = st.mmId + 1 := by
  obtain ⟨s, -, hmm, hst⟩ := deep_dup_ok_elim h
  subst hmm
  subst hst
  exact ⟨rfl, rfl⟩

/-- Invariant of a construction sequence: the collected ids are strictly
increasing, all at least the initial counter value, and the first collected id
(if any) is exactly the initial counter value. -/
theorem runOps_spec : ∀ (ops : List MmOp) (st : KState),
    List.Pairwise (· < ·) (runOps ops st).1 ∧
    (∀ x ∈ (runOps ops st).1, st.mmId ≤ x) ∧
    (∀ x ∈ (runOps ops st).1.head?, x = st.mmId) := by
  intro ops
  induction ops with
  | nil =>
    intro st
    simp [runOps]
  | cons op rest ih =>
    intro st
    cases op with
    | newOp =>
      obtain ⟨ih1, ih2, ih3⟩ := ih (MmStruct.new st).2
      have hbump : (MmStruct.new st).2.mmId = st.mmId + 1 := rfl
      simp only [runOps]
      refine ⟨List.pairwise_cons.2 ⟨?_, ih1⟩, ?_, ?_⟩
      · intro x hx
        have := ih2 x hx
        show st.mmId < x
        omega
      · intro x hx
        rcases List.mem_cons.1 hx with h1 | h2
        · subst h1
          exact Nat.le_refl _
        · have := ih2 x h2
          omega
      · intro x hx
        rw [List.head?_cons, Option.mem_some_iff] at hx
        exact hx.symm
    | dupOp mm off =>
      cases hdp : MmStruct.deep_dup mm off st with
      | error e =>
        simp [runOps, hdp]
      | ok r =>
        obtain ⟨mm1, st1⟩ := r
        obtain ⟨hid, hbump⟩ := deep_dup_ok_id hdp
        obtain ⟨ih1, ih2, ih3⟩ := ih st1
        simp only [runOps, hdp]
        refine ⟨List.pairwise_cons.2 ⟨?_, ih1⟩, ?_, ?_⟩
        · intro x hx
          have := ih2 x hx
          rw [hid]
          omega
        · intro x hx
          rcases List.mem_cons.1 hx with h1 | h2
          · subst h1
            rw [hid]
          · have := ih2 x h2
            omega
        · intro x hx
          rw [List.head?_cons, Option.mem_some_iff] at hx
          rw [← hx]
          exact hid

/-- Claim C6: for every sequence of `MmStruct::new()` / `deep_dup()` calls
starting from the initial counter value 1 (`MM_UNIQUE_ID` starts at 1), the
ids of the resulting structures are strictly increasing in call order, hence
pairwise distinct, and the first id ever issued is 1; moreover `id()` always
returns the value assigned at construction: `set_brk`, `map_region` and
`unmap_region` never change it (no operation resets or reuses an id). -/
theorem mm_ids_unique (ops : List MmOp) (st : KState) (h1 : st.mmId = 1) :
    List.Chain' (· < ·) (runOps ops st).1 ∧
    List.Pairwise (· ≠ ·) (runOps ops st).1 ∧
    (∀ x ∈ (runOps ops st).1.head?, x = 1) ∧
    (∀ (m : MmStruct) (b : Nat), (m.set_brk b).id = m.id) ∧
    (∀ (m : MmStruct) (va pa len uf : Nat),
      ((m.map_region va pa len uf).1).id = m.id) ∧
    (∀ (m : MmStruct) (va len : Nat),
      ((m.unmap_region va len).1).id = m.id) := by
  obtain ⟨hpw, hge, hhead⟩ := runOps_spec ops st
  refine ⟨hpw.chain', hpw.imp Nat.ne_of_lt, ?_, fun m b => rfl,
    fun m va pa len uf => rfl, fun m va len => rfl⟩
  intro x hx
  rw [hhead x hx, h1]

/-- Witness for C6: running `[new, deep_dup of an empty space, new]` from the
initial state issues strictly increasing, pairwise distinct ids with head
1. -/
theorem mm_ids_unique_witness :
    List.Chain' (· < ·) (runOps exOps exhaustedSt).1 ∧
    List.Pairwise (· ≠ ·) (runOps exOps exhaustedSt).1 ∧
    (∀ x ∈ (runOps exOps exhaustedSt).1.head?, x = 1) := by
  obtain ⟨h1, h2, h3, -⟩ := mm_ids_unique exOps exhaustedSt rfl
  exact ⟨h1, h2, h3⟩

/-- Claim C7: `root_paddr()` is fixed at construction — any sequence of
`map_region`, `unmap_region`, `set_brk` or `deep_dup` calls leaves the value
subsequently returned by `root_paddr()` unchanged (the backend rewrites only
descendant entries, never the root; `deep_dup` builds a fresh table and never
touches the source's). -/
theorem root_paddr_stable (mm : MmStruct) (st : KState) (ops : List SpaceOp) :
    (applyOps (mm, st) ops).1.root_paddr = mm.root_paddr := by
  induction ops generalizing mm st with
  | nil => rfl
  | cons op rest ih =>
    have hstep : applyOps (mm, st) (op :: rest) =
        applyOps (applyOp (mm, st) op) rest := rfl
    rw [hstep]
    cases op with
    | mapOp va pa len uf =>
      have hop : applyOp (mm, st) (SpaceOp.mapOp va pa len uf) =
          ((mm.map_region va pa len uf).1, st) := rfl
      rw [hop, ih]
      exact map_region_root mm.pgd va pa len rwxuFlags true
    | unmapOp va len =>
      have hop : applyOp (mm, st) (SpaceOp.unmapOp va len) =
          ((mm.unmap_region va len).1, st) := rfl
      rw [hop, ih]
      exact unmap_region_root mm.pgd va len
    | brkOp b =>
      have hop : applyOp (mm, st) (SpaceOp.brkOp b) = (mm.set_brk b, st) := rfl
      rw [hop, ih]
      rfl
    | dupOp off =>
      cases hdp : MmStruct.deep_dup mm off st with
      | error e =>
        have hop : applyOp (mm, st) (SpaceOp.dupOp off) = (mm, st) := by
          simp only [applyOp, hdp]
        rw [hop, ih]
      | ok r =>
        obtain ⟨mm1, st1⟩ := r
        have hop : applyOp (mm, st) (SpaceOp.dupOp off) = (mm, st1) := by
          simp only [applyOp, hdp]
        rw [hop, ih]

/-- Claim C8: `MmStruct::new()` returns a structure with an empty `vmas` map,
an empty `mapped` ledger, `brk = 0`, `locked_vm = 0`, a freshly allocated
empty page table (no entry installed, fresh root), and a fresh id (the counter
value, which is then bumped). -/
theorem mm_new_initial (st : KState) :
    (MmStruct.new st).1.vmas = [] ∧
    (MmStruct.new st).1.mapped = [] ∧
    (MmStruct.new st).1.brk = 0 ∧
    (MmStruct.new st).1.locked_vm = 0 ∧
    (∀ va, (MmStruct.new st).1.pgd.entries va = none) ∧
    (MmStruct.new st).1.pgd.root_paddr = st.rootNext ∧
    (MmStruct.new st).1.id = st.mmId ∧
    (MmStruct.new st).2.mmId = st.mmId + 1 :=
  ⟨rfl, rfl, rfl, rfl, fun _ => rfl, rfl, rfl, rfl⟩

/-- Running the ledger-copy loop on a concatenation: once the first part
succeeds, the loop continues on the second part from the reached state. -/
theorem dupPages_append_ok (offset : Nat) :
    ∀ (l1 l2 : List (Nat × Nat)) (s s1 : DupState),
      dupPages offset l1 s = Except.ok s1 →
      dupPages offset (l1 ++ l2) s = dupPages offset l2 s1 := by
  intro l1
  induction l1 with
  | nil =>
    intro l2 s s1 h
    have hs : s = s1 := by simpa [dupPages] using h
    subst hs
    rfl
  | cons hd t ih =>
    obtain ⟨va, old⟩ := hd
    intro l2 s s1 h
    simp only [dupPages] at h
    rw [List.cons_append]
    simp only [dupPages]
    split at h
    · exact absurd h (by simp)
    · rename_i np a1 heq
      split at h
      · exact absurd h (by simp)
      · rename_i pgd1 u heq2
        exact ih l2 _ s1 h

/-- Claim C9: whenever the physical-page allocator fails during `deep_dup()` —
the copy loop processes any prefix of the source ledger successfully and the
page request for the next entry fails — the call is fatal for that
duplication and yields the resource-exhaustion outcome `AxError.NoMemory`
(the Rust `alloc_pages(..).unwrap()` aborts the call); no `MmStruct` is
produced, so the partially built copy is never installed or made reachable,
and the source — which `deep_dup` only borrows — is untouched. -/
theorem deep_dup_alloc_exhausted (mm : MmStruct) (offset : Nat) (st : KState)
    (hfail : ∃ done p rest s, mm.mapped = done ++ p :: rest ∧
      dupPages offset done
        ⟨st.mem, st.alloc, pgd_alloc st.rootNext, []⟩ = Except.ok s ∧
      AllocState.alloc_pages s.alloc 1 PAGE_SIZE = none) :
    MmStruct.deep_dup mm offset st = Except.error AxError.NoMemory := by
  obtain ⟨done, p, rest, s, hsplit, hrun, halloc⟩ := hfail
  obtain ⟨va, old⟩ := p
  unfold MmStruct.deep_dup
  rw [hsplit, dupPages_append_ok offset done ((va, old) :: rest) _ s hrun]
  simp only [dupPages, halloc]

/-- Witness for C9, at a mid-duplication exhaustion point: duplicating the
two-page `exMm` from `midSt` serves the first page request (frontier 16384,
limit 20480) and the allocator fails on the second; `deep_dup` is the
`NoMemory` outcome. -/
theorem deep_dup_alloc_exhausted_witness :
    (∃ done p rest s, exMm.mapped = done ++ p :: rest ∧
      dupPages 0 done
        ⟨midSt.mem, midSt.alloc, pgd_alloc midSt.rootNext, []⟩ = Except.ok s ∧
      AllocState.alloc_pages s.alloc 1 PAGE_SIZE = none) ∧
    MmStruct.deep_dup exMm 0 midSt = Except.error AxError.NoMemory := by
  have hfail : ∃ done p rest s, exMm.mapped = done ++ p :: rest ∧
      dupPages 0 done
        ⟨midSt.mem, midSt.alloc, pgd_alloc midSt.rootNext, []⟩ = Except.ok s ∧
      AllocState.alloc_pages s.alloc 1 PAGE_SIZE = none :=
    ⟨[(4096, 8192)], (8192, 12288), [], _, rfl, rfl, rfl⟩
  exact ⟨hfail, deep_dup_alloc_exhausted exMm 0 midSt hfail⟩

/-- Claim C10: a successful `deep_dup()` leaves the source unchanged.  In this
embedding the source value is immutable by construction (`deep_dup` borrows
it), so its `id`, `vmas`, `mapped`, `brk`, `locked_vm` and `root_paddr()` are
the very same values after the call; the substantive frame fact proved here is
that the duplication writes no byte below the pre-call allocation frontier —
in particular every source backing page (allocated before the call) still
holds exactly its pre-call bytes, so the content observed through the source's
mappings is unchanged. -/
theorem deep_dup_source_frame (mm : MmStruct) (offset : Nat) (st : KState)
    (mm' : MmStruct) (st' : KState)
    (hok : MmStruct.deep_dup mm offset st = Except.ok (mm', st')) :
    (∀ x, x < st.alloc.next → st'.mem x = st.mem x) ∧
    (∀ p ∈ mm.mapped, p.2 + PAGE_SIZE ≤ st.alloc.next →
      ∀ j, j < PAGE_SIZE → st'.mem (p.2 + j) = st.mem (p.2 + j)) := by
  obtain ⟨s, hdp, hmm, hst⟩ := deep_dup_ok_elim hok
  obtain ⟨-, hfr⟩ := dupPages_frame offset mm.mapped _ s hdp
  have Hfr : ∀ x, x < st.alloc.next → s.mem x = st.mem x := hfr
  subst hst
  refine ⟨fun x hx => Hfr x hx, ?_⟩
  intro p hp hle j hj
  have hps : 0 < PAGE_SIZE := by decide
  exact Hfr (p.2 + j) (by omega)

/-- Witness for C10: after the concrete duplication of `exMm`, a byte inside
the first source page still holds its pre-call value. -/
theorem deep_dup_source_frame_witness :
    ∃ mmC stC, MmStruct.deep_dup exMm 0 exSt = Except.ok (mmC, stC) ∧
      stC.mem 8200 = exSt.mem 8200 := by
  obtain ⟨r, hr⟩ : ∃ r, MmStruct.deep_dup exMm 0 exSt = Except.ok r := ⟨_, rfl⟩
  exact ⟨r.1, r.2, hr,
    (deep_dup_source_frame exMm 0 exSt r.1 r.2 hr).1 8200 (by decide)⟩
